import Mathlib

/-!
Verification of the bounded producer–consumer core in
`src/assignment1/producer_consumer.py`.

The Python module implements:
* `BoundedBuffer` — a bounded blocking queue over `collections.deque`
  guarded by one lock and two condition variables, with optional timeouts;
* `SourceContainer` — a list with a cursor, `get_next` returning the next
  item or `None` once exhausted;
* `DestinationContainer` — a list that consumers append to;
* `Producer` (a thread) — pulls from the source until exhausted, `put`s each
  item, then `put`s one caller-supplied poison pill; exceptions inside
  `run` are caught and logged;
* `Consumer` (a thread) — `take`s items, stops at the first item equal
  (`==`) to the poison pill, appends every other item to the destination.

The embedding below is shallow and sequential:
* queue contents are a `List`, head = front of the deque (the side
  `popleft` removes from), tail = the side `append` adds to;
* blocking and timeouts are embedded by giving `put`/`take` an explicit
  outcome type.  Because a timed wait on the condition variable simply
  sleeps out its whole argument when no other thread ever signals, a call
  whose guard fails and for which no concurrent operation frees the guard
  deterministically times out (after zero waits when the remaining budget
  is already `≤ 0` at the first check, after one wait otherwise), and a
  call with `timeout = none` blocks forever.  Interference from other
  threads is modelled at the trace level (`runOps`): every successful
  `put`/`take` is an atomic guarded step on the shared queue, which is
  exactly the granularity the lock enforces in the source.
-/

namespace ProducerConsumer

/-- State of `BoundedBuffer`: the construction-time `_capacity` (a Python
`int`, kept as `Int` so that non-positive arguments are representable) and
the `_queue` deque. -/
structure BoundedBuffer (α : Type) where
  capacity : Int
  queue : List α
deriving Repr, DecidableEq

/-- Embeds `BoundedBuffer.__init__`: `capacity <= 0` raises
`ValueError("Capacity must be positive")`; otherwise the buffer starts with
an empty deque. -/
def BoundedBuffer.make (α : Type) (capacity : Int) : Except String (BoundedBuffer α) :=
  if capacity ≤ 0 then .error "Capacity must be positive"
  else .ok { capacity := capacity, queue := [] }

/-- Embeds `BoundedBuffer.size`: `len(self._queue)`. -/
def BoundedBuffer.size (b : BoundedBuffer α) : Nat :=
  b.queue.length

/-- Embeds `BoundedBuffer.capacity()`, which returns `self._capacity`
unchanged. -/
def BoundedBuffer.capacityFn (b : BoundedBuffer α) : Int :=
  b.capacity

/-- Result of a `put` call under the sequential semantics. -/
inductive PutOutcome (α : Type) where
  /-- The item was appended; `post` is the buffer afterwards. -/
  | ok (post : BoundedBuffer α)
  /-- `BufferTimeoutError("put() timed out")` was raised; `post` is the
  buffer afterwards and `waits` counts the `Condition.wait` calls made
  before raising. -/
  | timedOut (post : BoundedBuffer α) (waits : Nat)
  /-- `timeout = None` with the guard never satisfied: the call never
  returns. -/
  | blocksForever
deriving Repr, DecidableEq

/-- Result of a `take` call under the sequential semantics. -/
inductive TakeOutcome (α : Type) where
  /-- The front item was removed and returned. -/
  | ok (item : α) (post : BoundedBuffer α)
  /-- `BufferTimeoutError("take() timed out")` was raised. -/
  | timedOut (post : BoundedBuffer α) (waits : Nat)
  /-- `timeout = None` with the guard never satisfied: the call never
  returns. -/
  | blocksForever
deriving Repr, DecidableEq

/-- Embeds `BoundedBuffer.put` when no concurrent `take` frees a slot
during the call.  The source loops `while len(self._queue) == self._capacity`;
with `timeout = None` it waits forever, otherwise `remaining = end_time -
time.monotonic()` is `timeout` at the first check (raising immediately when
`timeout ≤ 0`) and `0` after the single timed wait sleeps out, so the
second check raises.  When the guard passes, `self._queue.append(item)`. -/
def BoundedBuffer.put (b : BoundedBuffer α) (item : α) (timeout : Option Rat) :
    PutOutcome α :=
  if (b.queue.length : Int) = b.capacity then
    match timeout with
    | none => .blocksForever
    | some t => if t ≤ 0 then .timedOut b 0 else .timedOut b 1
  else
    .ok { b with queue := b.queue ++ [item] }

/-- Embeds `BoundedBuffer.take` when no concurrent `put` delivers an item
during the call.  The source loops `while not self._queue` with the same
timeout arithmetic as `put`; when the guard passes,
`item = self._queue.popleft()` is returned. -/
def BoundedBuffer.take (b : BoundedBuffer α) (timeout : Option Rat) :
    TakeOutcome α :=
  match b.queue with
  | [] =>
    match timeout with
    | none => .blocksForever
    | some t => if t ≤ 0 then .timedOut b 0 else .timedOut b 1
  | x :: xs => .ok x { b with queue := xs }

/-- One atomic queue operation in an interleaved run: some thread's `put`
of a given item, or some thread's `take`. -/
inductive QOp (α : Type) where
  | put (item : α)
  | take
deriving Repr, DecidableEq

/-- Trace semantics of the shared buffer: run a sequence of atomic
`put`/`take` steps, each taken only when its guard allows it to complete
(a step whose guard fails yields `none` — in the source that thread would
instead block until the guard holds, so successful interleavings are
exactly the traces this function accepts).  Returns the list of values the
`take` steps returned, in order, and the final buffer. -/
def runOps (b : BoundedBuffer α) : List (QOp α) → Option (List α × BoundedBuffer α)
  | [] => some ([], b)
  | QOp.put item :: rest =>
    match b.put item none with
    | .ok b2 => runOps b2 rest
    | _ => none
  | QOp.take :: rest =>
    match b.take none with
    | .ok x b2 => (runOps b2 rest).map (fun r => (x :: r.1, r.2))
    | _ => none

/-- Items put by a sequence of steps, in order. -/
def putsOf : List (QOp α) → List α
  | [] => []
  | QOp.put item :: rest => item :: putsOf rest
  | QOp.take :: rest => putsOf rest

/-- State of `SourceContainer`: the fixed `_items` list and the `_index`
cursor (starts at `0`). -/
structure SourceContainer (α : Type) where
  items : List α
  index : Nat
deriving Repr, DecidableEq

/-- Embeds `SourceContainer.get_next`: returns `None` once the cursor has
passed the end, otherwise the item at the cursor, advancing the cursor. -/
def SourceContainer.getNext (s : SourceContainer α) : Option α × SourceContainer α :=
  if h : s.index < s.items.length then
    (some (s.items.get ⟨s.index, h⟩), { s with index := s.index + 1 })
  else
    (none, s)

/-- Embeds the `while True` loop of `Producer.run` on its exception-free
path, with `SourceContainer.get_next` inlined (the cursor test and
post-increment of `get_next` appear verbatim as the recursion guard).
Returns the items put before the pill, in order, and the final source
state. -/
def producerLoop (s : SourceContainer α) : List α × SourceContainer α :=
  if h : s.index < s.items.length then
    let r := producerLoop { s with index := s.index + 1 }
    (s.items.get ⟨s.index, h⟩ :: r.1, r.2)
  else
    ([], s)
termination_by s.items.length - s.index
decreasing_by omega

/-- Embeds `Producer.run` on the exception-free path: drain the source,
then `put` the caller-supplied poison pill once.  The first component is
the full sequence of values this producer passes to `buffer.put`, in
order. -/
def Producer.runPuts (source : SourceContainer α) (pill : α) :
    List α × SourceContainer α :=
  let r := producerLoop source
  (r.1 ++ [pill], r.2)

/-- Observable outcome of `Producer.run`, including its
`except Exception` handler. -/
inductive ProducerOutcome (α : Type) where
  /-- The `try` block ran to completion; `puts` ends with the poison pill
  and `logger.info("Producer %s finished", ...)` was emitted. -/
  | finished (puts : List α)
  /-- An exception escaped a statement in the `try` block; the handler
  called `logger.exception` and fell off the end of `run` — the error is
  not re-raised, not stored anywhere, and no further `put` happens. -/
  | loggedError (puts : List α)
deriving Repr, DecidableEq

/-- Embeds `Producer.run` with an explicit failure point: `failAt = some k`
means the `(k+1)`-st loop iteration's `get_next` or `put` raised after `k`
items had been put successfully; `failAt = none` is the exception-free
path. -/
def Producer.runModel (source : SourceContainer α) (pill : α)
    (failAt : Option Nat) : ProducerOutcome α :=
  match failAt with
  | none => .finished (Producer.runPuts source pill).1
  | some k => .loggedError ((producerLoop source).1.take k)

/-- Embeds `Consumer.run`: `feed` is the sequence of values that successive
`buffer.take()` calls return to this consumer.  The loop stops at the
first value equal (`==`) to the poison pill and appends every earlier
value to the destination via `DestinationContainer.add`.  Returns the
destination contents contributed by this consumer and the number of `take`
calls made.  Exhausting `feed` without meeting the pill means the
consumer is still blocked inside `take`. -/
def Consumer.runModel [DecidableEq α] (pill : α) : List α → List α × Nat
  | [] => ([], 0)
  | x :: xs =>
    if x = pill then ([], 1)
    else
      let r := Consumer.runModel pill xs
      (x :: r.1, r.2 + 1)

/-- Total number of poison pills enqueued during a run in which each of the
given producers drains its own source to exhaustion without an exception
(each `Producer.run` puts its own pill; there is no coordinator in the
source). -/
def totalShutdownSignals [DecidableEq α] (sources : List (List α)) (pill : α) : Nat :=
  (sources.map (fun items =>
    (Producer.runPuts { items := items, index := 0 } pill).1.count pill)).sum

/-! ## Auxiliary lemmas -/

/-- Characterisation of the producer loop: it puts exactly the items from
the cursor onward, in list order, and leaves the cursor at the end. -/
theorem producerLoop_spec (s : SourceContainer α) :
    producerLoop s =
      (s.items.drop s.index,
       { items := s.items, index := max s.items.length s.index }) := by
  rw [producerLoop]
  split
  · rename_i h
    rw [producerLoop_spec { s with index := s.index + 1 }]
    have hmax : max s.items.length (s.index + 1) = max s.items.length s.index := by
      omega
    show (_ :: s.items.drop (s.index + 1),
          ({ items := s.items, index := max s.items.length (s.index + 1) } :
            SourceContainer α)) = _
    rw [hmax, List.drop_eq_getElem_cons h]
    simp [List.get_eq_getElem]
  · rename_i h
    have hle : s.items.length ≤ s.index := Nat.le_of_not_lt h
    rw [List.drop_eq_nil_of_le hle, Nat.max_eq_right hle]
termination_by s.items.length - s.index
decreasing_by omega

/-- The values a fresh producer passes to `put`: its whole source, then
the pill. -/
theorem runPuts_spec (items : List α) (pill : α) :
    (Producer.runPuts { items := items, index := 0 } pill).1 = items ++ [pill] := by
  simp [Producer.runPuts, producerLoop_spec]

/-- A producer whose source avoids the pill value enqueues the pill exactly
once. -/
theorem count_pill_runPuts [DecidableEq α] (items : List α) (pill : α)
    (h : pill ∉ items) :
    (Producer.runPuts { items := items, index := 0 } pill).1.count pill = 1 := by
  rw [runPuts_spec]
  simp [List.count_append, List.count_eq_zero_of_not_mem h]

/-- With one pill per producer, a family of producers enqueues as many
pills as there are producers. -/
theorem totalShutdownSignals_eq [DecidableEq α] (sources : List (List α)) (pill : α)
    (h : ∀ s ∈ sources, pill ∉ s) :
    totalShutdownSignals sources pill = sources.length := by
  induction sources with
  | nil => simp [totalShutdownSignals]
  | cons s rest ih =>
    have hs : pill ∉ s := h s (List.mem_cons_self s rest)
    have hrest : ∀ x ∈ rest, pill ∉ x := fun x hx => h x (List.mem_cons_of_mem s hx)
    simp only [totalShutdownSignals, List.map_cons, List.sum_cons, List.length_cons]
    rw [count_pill_runPuts s pill hs]
    have := ih hrest
    simp only [totalShutdownSignals] at this
    omega

/-- Running a trace preserves the capacity field and never loses, invents
or reorders items: the initial queue followed by the put items equals the
taken items followed by the final queue. -/
theorem runOps_spec (steps : List (QOp α)) (b : BoundedBuffer α)
    (outs : List α) (b2 : BoundedBuffer α)
    (h : runOps b steps = some (outs, b2)) :
    b.queue ++ putsOf steps = outs ++ b2.queue ∧ b2.capacity = b.capacity := by
  induction steps generalizing b outs b2 with
  | nil =>
    simp only [runOps, Option.some.injEq, Prod.mk.injEq] at h
    obtain ⟨h1, h2⟩ := h
    subst h1; subst h2
    simp [putsOf]
  | cons op rest ih =>
    cases op with
    | put item =>
      simp only [runOps] at h
      by_cases hc : (b.queue.length : Int) = b.capacity
      · simp [BoundedBuffer.put, hc] at h
      · simp only [BoundedBuffer.put, hc, if_false] at h
        obtain ⟨h1, h2⟩ := ih _ _ _ h
        refine ⟨?_, by simpa using h2⟩
        simpa [putsOf, List.append_assoc] using h1
    | take =>
      simp only [runOps] at h
      cases hq : b.queue with
      | nil => simp [BoundedBuffer.take, hq] at h
      | cons x xs =>
        simp only [BoundedBuffer.take, hq] at h
        cases hr : runOps { b with queue := xs } rest with
        | none => rw [hr] at h; simp at h
        | some r =>
          rw [hr] at h
          simp only [Option.map_some', Option.some.injEq, Prod.mk.injEq] at h
          obtain ⟨h1, h2⟩ := h
          obtain ⟨ih1, ih2⟩ := ih _ _ _ hr
          subst h1
          subst h2
          constructor
          · simp only [putsOf, List.cons_append]
            exact congrArg (fun l => x :: l) ih1
          · exact ih2

/-- A successful trace keeps the queue length at most the capacity. -/
theorem runOps_length (steps : List (QOp α)) (b : BoundedBuffer α)
    (outs : List α) (b2 : BoundedBuffer α)
    (h0 : (b.queue.length : Int) ≤ b.capacity)
    (h : runOps b steps = some (outs, b2)) :
    (b2.queue.length : Int) ≤ b2.capacity := by
  induction steps generalizing b outs b2 with
  | nil =>
    simp only [runOps, Option.some.injEq, Prod.mk.injEq] at h
    obtain ⟨h1, h2⟩ := h
    subst h2
    exact h0
  | cons op rest ih =>
    cases op with
    | put item =>
      simp only [runOps] at h
      by_cases hc : (b.queue.length : Int) = b.capacity
      · simp [BoundedBuffer.put, hc] at h
      · simp only [BoundedBuffer.put, hc, if_false] at h
        refine ih _ _ _ ?_ h
        simp only [List.length_append, List.length_cons, List.length_nil]
        push_cast
        omega
    | take =>
      simp only [runOps] at h
      cases hq : b.queue with
      | nil => simp [BoundedBuffer.take, hq] at h
      | cons x xs =>
        simp only [BoundedBuffer.take, hq] at h
        cases hr : runOps { b with queue := xs } rest with
        | none => rw [hr] at h; simp at h
        | some r =>
          rw [hr] at h
          simp only [Option.map_some', Option.some.injEq, Prod.mk.injEq] at h
          obtain ⟨h1, h2⟩ := h
          subst h2
          have hxs : ((xs.length : Int)) ≤ b.capacity := by
            rw [hq] at h0
            simp only [List.length_cons] at h0
            push_cast at h0 ⊢
            omega
          exact ih _ _ _ hxs hr

/-- Inversion of a successful construction: the capacity was positive and
the buffer started empty. -/
theorem make_ok_inv (α : Type) (cap : Int) (b : BoundedBuffer α)
    (h : BoundedBuffer.make α cap = .ok b) :
    0 < cap ∧ b = { capacity := cap, queue := [] } := by
  by_cases hc : cap ≤ 0
  · simp [BoundedBuffer.make, hc] at h
  · simp only [BoundedBuffer.make, hc, if_false, Except.ok.injEq] at h
    exact ⟨by omega, h.symm⟩

/-! ## Claim theorems -/

/-- C4: for every queue constructed with capacity `C > 0` and every
sequence of put/take steps each taken only when its guard allows it to
complete, the reachable state satisfies `0 ≤ size() ≤ C` (and the capacity
field still holds the construction argument); since every reachable state
is the final state of some successful trace, this covers all sampled
instants. -/
theorem capacity_invariant (α : Type) (cap : Int) (b0 : BoundedBuffer α)
    (steps : List (QOp α)) (outs : List α) (b2 : BoundedBuffer α)
    (hmk : BoundedBuffer.make α cap = .ok b0)
    (hrun : runOps b0 steps = some (outs, b2)) :
    0 ≤ (b2.size : Int) ∧ (b2.size : Int) ≤ b2.capacity ∧ b2.capacity = cap := by
  obtain ⟨hpos, hb0⟩ := make_ok_inv α cap b0 hmk
  subst hb0
  have hlen := runOps_length steps _ _ _ (by simp; omega) hrun
  have hcap2 := (runOps_spec steps _ _ _ hrun).2
  exact ⟨Int.natCast_nonneg _, hlen, by simpa using hcap2⟩

/-- Witness for C4: capacity 2, trace put 1, put 2, take, put 3. -/
theorem capacity_invariant_witness :
    BoundedBuffer.make ℤ 2 = .ok { capacity := 2, queue := [] } ∧
    runOps { capacity := 2, queue := [] }
      [QOp.put 1, QOp.put 2, QOp.take, QOp.put 3] =
      some ([1], { capacity := 2, queue := [2, 3] }) ∧
    (0 ≤ (({ capacity := 2, queue := [2, 3] } : BoundedBuffer ℤ).size : Int) ∧
      (({ capacity := 2, queue := [2, 3] } : BoundedBuffer ℤ).size : Int) ≤
        ({ capacity := 2, queue := [2, 3] } : BoundedBuffer ℤ).capacity ∧
      ({ capacity := 2, queue := [2, 3] } : BoundedBuffer ℤ).capacity = 2) :=
  ⟨by rfl, by rfl,
    capacity_invariant ℤ 2 { capacity := 2, queue := [] }
      [QOp.put 1, QOp.put 2, QOp.take, QOp.put 3] [1]
      { capacity := 2, queue := [2, 3] } (by rfl) (by rfl)⟩

/-- C5: items come out in strict FIFO order relative to the sequence of
successful puts — the taken values followed by the remaining queue are
exactly the put values in put order — and at each step a successful put
appends its item at the tail adding one to the length, while a successful
take removes and returns the head subtracting one. -/
theorem fifo_order (α : Type) (cap : Int) (b0 : BoundedBuffer α)
    (steps : List (QOp α)) (outs : List α) (b2 : BoundedBuffer α)
    (hmk : BoundedBuffer.make α cap = .ok b0)
    (hrun : runOps b0 steps = some (outs, b2)) :
    outs ++ b2.queue = putsOf steps ∧
    (∀ (c c2 : BoundedBuffer α) (item : α),
      c.put item none = .ok c2 → c2.queue = c.queue ++ [item] ∧ c2.size = c.size + 1) ∧
    (∀ (c c2 : BoundedBuffer α) (x : α),
      c.take none = .ok x c2 → c.queue = x :: c2.queue ∧ c.size = c2.size + 1) := by
  obtain ⟨hpos, hb0⟩ := make_ok_inv α cap b0 hmk
  subst hb0
  refine ⟨?_, ?_, ?_⟩
  · have h1 := (runOps_spec steps _ _ _ hrun).1
    simpa using h1.symm
  · intro c c2 item hput
    by_cases hc : (c.queue.length : Int) = c.capacity
    · simp [BoundedBuffer.put, hc] at hput
    · simp only [BoundedBuffer.put, hc, if_false, PutOutcome.ok.injEq] at hput
      subst hput
      exact ⟨rfl, by simp [BoundedBuffer.size]⟩
  · intro c c2 x htake
    cases hq : c.queue with
    | nil => simp [BoundedBuffer.take, hq] at htake
    | cons y ys =>
      simp only [BoundedBuffer.take, hq, TakeOutcome.ok.injEq] at htake
      obtain ⟨hy, hc2⟩ := htake
      subst hy
      subst hc2
      exact ⟨rfl, by simp [BoundedBuffer.size, hq]⟩

/-- Witness for C5: the capacity-5 exchange of 1..5 yields 1..5. -/
theorem fifo_order_witness :
    BoundedBuffer.make ℤ 5 = .ok { capacity := 5, queue := [] } ∧
    runOps { capacity := 5, queue := [] }
      [QOp.put 1, QOp.put 2, QOp.put 3, QOp.put 4, QOp.put 5,
       QOp.take, QOp.take, QOp.take, QOp.take, QOp.take] =
      some ([1, 2, 3, 4, 5], { capacity := 5, queue := [] }) ∧
    ([1, 2, 3, 4, 5] ++ ({ capacity := 5, queue := [] } : BoundedBuffer ℤ).queue =
      putsOf [QOp.put 1, QOp.put 2, QOp.put 3, QOp.put 4, QOp.put 5,
        QOp.take, QOp.take, QOp.take, QOp.take, QOp.take] ∧
      (∀ (c c2 : BoundedBuffer ℤ) (item : ℤ),
        c.put item none = .ok c2 →
          c2.queue = c.queue ++ [item] ∧ c2.size = c.size + 1) ∧
      (∀ (c c2 : BoundedBuffer ℤ) (x : ℤ),
        c.take none = .ok x c2 → c.queue = x :: c2.queue ∧ c.size = c2.size + 1)) :=
  ⟨by rfl, by rfl,
    fifo_order ℤ 5 { capacity := 5, queue := [] }
      [QOp.put 1, QOp.put 2, QOp.put 3, QOp.put 4, QOp.put 5,
       QOp.take, QOp.take, QOp.take, QOp.take, QOp.take]
      [1, 2, 3, 4, 5] { capacity := 5, queue := [] } (by rfl) (by rfl)⟩

/-- C6: with a caller-supplied deadline, `put`/`take` raises the timeout
error exactly when the operation cannot complete before the deadline (the
queue is full for `put`, empty for `take`, and nothing ever frees the
guard), and on that failure the queue is exactly as before the call. -/
theorem timeout_error_semantics (α : Type) (b : BoundedBuffer α) (item : α) (t : Rat) :
    ((∃ w, b.put item (some t) = .timedOut b w) ↔ (b.queue.length : Int) = b.capacity) ∧
    (∀ post w, b.put item (some t) = .timedOut post w → post = b) ∧
    ((∃ w, b.take (some t) = .timedOut b w) ↔ b.queue = []) ∧
    (∀ post w, b.take (some t) = .timedOut post w → post = b) := by
  refine ⟨⟨?_, ?_⟩, ?_, ⟨?_, ?_⟩, ?_⟩
  · rintro ⟨w, hw⟩
    by_cases hc : (b.queue.length : Int) = b.capacity
    · exact hc
    · simp [BoundedBuffer.put, hc] at hw
  · intro hc
    by_cases ht : t ≤ 0
    · exact ⟨0, by simp [BoundedBuffer.put, hc, ht]⟩
    · exact ⟨1, by simp [BoundedBuffer.put, hc, ht]⟩
  · intro post w hw
    by_cases hc : (b.queue.length : Int) = b.capacity
    · by_cases ht : t ≤ 0
      · simp only [BoundedBuffer.put, hc, if_true, ht, if_pos,
          PutOutcome.timedOut.injEq] at hw
        exact hw.1.symm
      · simp only [BoundedBuffer.put, hc, if_true, ht, if_neg, if_false,
          PutOutcome.timedOut.injEq] at hw
        exact hw.1.symm
    · simp [BoundedBuffer.put, hc] at hw
  · rintro ⟨w, hw⟩
    cases hq : b.queue with
    | nil => rfl
    | cons y ys => simp [BoundedBuffer.take, hq] at hw
  · intro hq
    by_cases ht : t ≤ 0
    · exact ⟨0, by simp [BoundedBuffer.take, hq, ht]⟩
    · exact ⟨1, by simp [BoundedBuffer.take, hq, ht]⟩
  · intro post w hw
    cases hq : b.queue with
    | nil =>
      by_cases ht : t ≤ 0
      · simp only [BoundedBuffer.take, hq, ht, if_pos,
          TakeOutcome.timedOut.injEq] at hw
        exact hw.1.symm
      · simp only [BoundedBuffer.take, hq, ht, if_neg, if_false,
          TakeOutcome.timedOut.injEq] at hw
        exact hw.1.symm
    | cons y ys => simp [BoundedBuffer.take, hq] at hw

/-- Witness for C6 at a full one-slot buffer with deadline 1. -/
theorem timeout_error_semantics_witness :
    ((∃ w, BoundedBuffer.put ({ capacity := 1, queue := [5] } : BoundedBuffer ℤ)
        7 (some 1) = .timedOut { capacity := 1, queue := [5] } w) ↔
      ((({ capacity := 1, queue := [5] } : BoundedBuffer ℤ).queue.length : Int) =
        ({ capacity := 1, queue := [5] } : BoundedBuffer ℤ).capacity)) ∧
    (∀ post w, BoundedBuffer.put ({ capacity := 1, queue := [5] } : BoundedBuffer ℤ)
        7 (some 1) = .timedOut post w → post = { capacity := 1, queue := [5] }) ∧
    ((∃ w, BoundedBuffer.take ({ capacity := 1, queue := [5] } : BoundedBuffer ℤ)
        (some (1 : Rat)) = .timedOut { capacity := 1, queue := [5] } w) ↔
      ({ capacity := 1, queue := [5] } : BoundedBuffer ℤ).queue = []) ∧
    (∀ post w, BoundedBuffer.take ({ capacity := 1, queue := [5] } : BoundedBuffer ℤ)
        (some (1 : Rat)) = .timedOut post w → post = { capacity := 1, queue := [5] }) :=
  timeout_error_semantics ℤ { capacity := 1, queue := [5] } 7 1

/-- C7: construction fails with the invalid-capacity error exactly when the
requested capacity is `≤ 0`; otherwise it returns an empty queue whose
`capacity()` is the construction argument forever — no successful or
timed-out `put`/`take` changes it. -/
theorem construction_semantics (α : Type) (cap : Int) :
    ((∃ msg, BoundedBuffer.make α cap = .error msg) ↔ cap ≤ 0) ∧
    (0 < cap → BoundedBuffer.make α cap = .ok { capacity := cap, queue := [] }) ∧
    (∀ b : BoundedBuffer α, BoundedBuffer.make α cap = .ok b →
      b.capacityFn = cap ∧ b.size = 0) ∧
    (∀ (b post : BoundedBuffer α) (item : α) (tmo : Option Rat),
      b.put item tmo = .ok post → post.capacityFn = b.capacityFn) ∧
    (∀ (b post : BoundedBuffer α) (item : α) (tmo : Option Rat) (w : Nat),
      b.put item tmo = .timedOut post w → post.capacityFn = b.capacityFn) ∧
    (∀ (b post : BoundedBuffer α) (x : α) (tmo : Option Rat),
      b.take tmo = .ok x post → post.capacityFn = b.capacityFn) ∧
    (∀ (b post : BoundedBuffer α) (tmo : Option Rat) (w : Nat),
      b.take tmo = .timedOut post w → post.capacityFn = b.capacityFn) := by
  refine ⟨⟨?_, ?_⟩, ?_, ?_, ?_, ?_, ?_, ?_⟩
  · rintro ⟨msg, hmsg⟩
    by_cases hc : cap ≤ 0
    · exact hc
    · simp [BoundedBuffer.make, hc] at hmsg
  · intro hc
    exact ⟨"Capacity must be positive", by simp [BoundedBuffer.make, hc]⟩
  · intro hc
    have hc2 : ¬ cap ≤ 0 := by omega
    simp [BoundedBuffer.make, hc2]
  · intro b hb
    by_cases hc : cap ≤ 0
    · simp [BoundedBuffer.make, hc] at hb
    · simp only [BoundedBuffer.make, hc, if_false, Except.ok.injEq] at hb
      subst hb
      exact ⟨rfl, rfl⟩
  · intro b post item tmo hput
    by_cases hc : (b.queue.length : Int) = b.capacity
    · cases tmo with
      | none => simp [BoundedBuffer.put, hc] at hput
      | some t =>
        by_cases ht : t ≤ 0
        · simp [BoundedBuffer.put, hc, ht] at hput
        · simp [BoundedBuffer.put, hc, ht] at hput
    · simp only [BoundedBuffer.put, hc, if_false, PutOutcome.ok.injEq] at hput
      subst hput
      rfl
  · intro b post item tmo w hput
    by_cases hc : (b.queue.length : Int) = b.capacity
    · cases tmo with
      | none => simp [BoundedBuffer.put, hc] at hput
      | some t =>
        by_cases ht : t ≤ 0
        · simp only [BoundedBuffer.put, hc, if_true, ht, if_pos,
            PutOutcome.timedOut.injEq] at hput
          rw [← hput.1]
        · simp only [BoundedBuffer.put, hc, if_true, ht, if_neg, if_false,
            PutOutcome.timedOut.injEq] at hput
          rw [← hput.1]
    · simp [BoundedBuffer.put, hc] at hput
  · intro b post x tmo htake
    cases hq : b.queue with
    | nil =>
      cases tmo with
      | none => simp [BoundedBuffer.take, hq] at htake
      | some t =>
        by_cases ht : t ≤ 0
        · simp [BoundedBuffer.take, hq, ht] at htake
        · simp [BoundedBuffer.take, hq, ht] at htake
    | cons y ys =>
      simp only [BoundedBuffer.take, hq, TakeOutcome.ok.injEq] at htake
      rw [← htake.2]
      rfl
  · intro b post tmo w htake
    cases hq : b.queue with
    | nil =>
      cases tmo with
      | none => simp [BoundedBuffer.take, hq] at htake
      | some t =>
        by_cases ht : t ≤ 0
        · simp only [BoundedBuffer.take, hq, ht, if_pos,
            TakeOutcome.timedOut.injEq] at htake
          rw [← htake.1]
        · simp only [BoundedBuffer.take, hq, ht, if_neg, if_false,
            TakeOutcome.timedOut.injEq] at htake
          rw [← htake.1]
    | cons y ys => simp [BoundedBuffer.take, hq] at htake

/-- Witness for C7 at capacities 3 and 0. -/
theorem construction_semantics_witness :
    (((∃ msg, BoundedBuffer.make ℤ 3 = .error msg) ↔ (3 : Int) ≤ 0) ∧
      (0 < (3 : Int) →
        BoundedBuffer.make ℤ 3 = .ok { capacity := 3, queue := [] }) ∧
      (∀ b : BoundedBuffer ℤ, BoundedBuffer.make ℤ 3 = .ok b →
        b.capacityFn = 3 ∧ b.size = 0) ∧
      (∀ (b post : BoundedBuffer ℤ) (item : ℤ) (tmo : Option Rat),
        b.put item tmo = .ok post → post.capacityFn = b.capacityFn) ∧
      (∀ (b post : BoundedBuffer ℤ) (item : ℤ) (tmo : Option Rat) (w : Nat),
        b.put item tmo = .timedOut post w → post.capacityFn = b.capacityFn) ∧
      (∀ (b post : BoundedBuffer ℤ) (x : ℤ) (tmo : Option Rat),
        b.take tmo = .ok x post → post.capacityFn = b.capacityFn) ∧
      (∀ (b post : BoundedBuffer ℤ) (tmo : Option Rat) (w : Nat),
        b.take tmo = .timedOut post w → post.capacityFn = b.capacityFn)) ∧
    ((∃ msg, BoundedBuffer.make ℤ 0 = .error msg) ↔ (0 : Int) ≤ 0) :=
  ⟨construction_semantics ℤ 3, (construction_semantics ℤ 0).1⟩

/-- C10: a non-positive timeout on a blocked operation raises the timeout
error immediately (zero waits) leaving the queue untouched, while an
operation whose guard already holds succeeds for every timeout value,
including zero and negative ones. -/
theorem immediate_timeout_nonpositive (α : Type) (b : BoundedBuffer α)
    (item : α) (t : Rat) :
    ((b.queue.length : Int) = b.capacity → t ≤ 0 →
      b.put item (some t) = .timedOut b 0) ∧
    ((b.queue.length : Int) ≠ b.capacity →
      b.put item (some t) = .ok { b with queue := b.queue ++ [item] }) ∧
    (b.queue = [] → t ≤ 0 → b.take (some t) = .timedOut b 0) ∧
    (∀ x xs, b.queue = x :: xs →
      b.take (some t) = .ok x { b with queue := xs }) := by
  refine ⟨?_, ?_, ?_, ?_⟩
  · intro hc ht
    simp [BoundedBuffer.put, hc, ht]
  · intro hc
    simp [BoundedBuffer.put, hc]
  · intro hq ht
    simp [BoundedBuffer.take, hq, ht]
  · intro x xs hq
    simp [BoundedBuffer.take, hq]

/-- Witness for C10: a full one-slot buffer with timeout `-1` times out at
once; a buffer with room accepts an item under timeout `0`; a non-empty
buffer hands out its head under timeout `-1`. -/
theorem immediate_timeout_nonpositive_witness :
    BoundedBuffer.put ({ capacity := 1, queue := [5] } : BoundedBuffer ℤ)
      7 (some (-1)) = .timedOut { capacity := 1, queue := [5] } 0 ∧
    BoundedBuffer.put ({ capacity := 2, queue := [5] } : BoundedBuffer ℤ)
      7 (some 0) = .ok { capacity := 2, queue := [5, 7] } ∧
    BoundedBuffer.take ({ capacity := 1, queue := [5] } : BoundedBuffer ℤ)
      (some (-1 : Rat)) = .ok 5 { capacity := 1, queue := [] } ∧
    BoundedBuffer.take ({ capacity := 1, queue := ([] : List ℤ) } : BoundedBuffer ℤ)
      (some (-1 : Rat)) = .timedOut { capacity := 1, queue := [] } 0 :=
  ⟨(immediate_timeout_nonpositive ℤ { capacity := 1, queue := [5] } 7 (-1)).1
      (by rfl) (by norm_num),
   (immediate_timeout_nonpositive ℤ { capacity := 2, queue := [5] } 7 0).2.1
      (by decide),
   (immediate_timeout_nonpositive ℤ { capacity := 1, queue := [5] } 7 (-1)).2.2.2
      5 [] rfl,
   (immediate_timeout_nonpositive ℤ { capacity := 1, queue := [] } 7 (-1)).2.2.1
      rfl (by norm_num)⟩

/-- C8: a consumer appends every ordinary item it takes to the sink
collector, never appends the shutdown pill, performs no `take` after the
first pill, and consumes exactly one pill: its `take` calls cover exactly
the feed prefix up to and including the first pill. -/
theorem consumer_shutdown_spec (α : Type) [DecidableEq α] (pill : α)
    (feed : List α) (hmem : pill ∈ feed) :
    pill ∉ (Consumer.runModel pill feed).1 ∧
    feed.take (Consumer.runModel pill feed).2 =
      (Consumer.runModel pill feed).1 ++ [pill] ∧
    (feed.take (Consumer.runModel pill feed).2).count pill = 1 := by
  induction feed with
  | nil => cases hmem
  | cons x xs ih =>
    by_cases hx : x = pill
    · subst hx
      simp [Consumer.runModel]
    · have hmem2 : pill ∈ xs := by
        rcases List.mem_cons.1 hmem with h | h
        · exact absurd h.symm hx
        · exact h
      obtain ⟨ih1, ih2, ih3⟩ := ih hmem2
      simp only [Consumer.runModel, if_neg hx]
      refine ⟨?_, ?_, ?_⟩
      · intro hmemc
        rcases List.mem_cons.1 hmemc with h | h
        · exact hx h.symm
        · exact ih1 h
      · simp only [List.take_succ_cons, List.cons_append]
        exact congrArg (fun l => x :: l) ih2
      · simp only [List.take_succ_cons]
        rw [List.count_cons]
        simp [hx, ih3]

/-- Witness for C8 on the feed 1, 2, pill, 3 with pill value 0. -/
theorem consumer_shutdown_spec_witness :
    (0 : ℤ) ∈ [1, 2, 0, 3] ∧
    ((0 : ℤ) ∉ (Consumer.runModel 0 [1, 2, 0, 3]).1 ∧
      [1, 2, 0, 3].take (Consumer.runModel (0 : ℤ) [1, 2, 0, 3]).2 =
        (Consumer.runModel (0 : ℤ) [1, 2, 0, 3]).1 ++ [0] ∧
      ([1, 2, 0, 3].take (Consumer.runModel (0 : ℤ) [1, 2, 0, 3]).2).count 0 = 1) :=
  ⟨by decide, consumer_shutdown_spec ℤ 0 [1, 2, 0, 3] (by decide)⟩

/-- C2 counterexample: with the caller-supplied pill value 7, a producer
whose source legitimately contains 7 enqueues 7, 8, 7, and the consumer
mistakes the first ordinary 7 for the shutdown signal: it appends nothing
to the sink and stops after one take, losing the payloads 7 and 8.  The
detection test `item == poison_pill` offers no collision protection for a
payload equal to the sentinel value. -/
theorem sentinel_collision_cex :
    (Producer.runPuts ({ items := [7, 8], index := 0 } : SourceContainer ℤ) 7).1 = [7, 8, 7] ∧
    Consumer.runModel (7 : ℤ) [7, 8, 7] = ([], 1) := by
  refine ⟨?_, by decide⟩
  rw [runPuts_spec]
  rfl

/-- C2 amended: the consumer detects shutdown by an equality test against
the caller-supplied sentinel.  Every payload different from the sentinel
is appended to the sink and the loop continues; a payload equal to the
sentinel is indistinguishable from shutdown and terminates the consumer.
Non-collision therefore holds only under the caller's guarantee that the
sentinel differs from every payload (the demos use a fresh `object()`),
not by construction of the item type. -/
theorem consumer_detection_semantics (α : Type) [DecidableEq α] (pill v : α)
    (rest : List α) :
    (v ≠ pill → Consumer.runModel pill (v :: rest) =
      (v :: (Consumer.runModel pill rest).1,
        (Consumer.runModel pill rest).2 + 1)) ∧
    (v = pill → Consumer.runModel pill (v :: rest) = ([], 1)) := by
  constructor
  · intro h
    simp [Consumer.runModel, h]
  · intro h
    simp [Consumer.runModel, h]

/-- Witness for C2 (amended) on an ordinary item 1 and pill value 0. -/
theorem consumer_detection_semantics_witness :
    ((1 : ℤ) ≠ 0 → Consumer.runModel (0 : ℤ) [1, 2, 0] =
      (1 :: (Consumer.runModel (0 : ℤ) [2, 0]).1,
        (Consumer.runModel (0 : ℤ) [2, 0]).2 + 1)) ∧
    ((1 : ℤ) = 0 → Consumer.runModel (0 : ℤ) [1, 2, 0] = ([], 1)) :=
  consumer_detection_semantics ℤ 0 1 [2, 0]

/-- C9: every producer whose loop completes without an exception puts
exactly one shutdown pill, as its last put after the source is exhausted —
also when the source yields zero items — so a run with P producers injects
exactly P pills, a number set by the producer count alone. -/
theorem producer_pill_per_producer (α : Type) [DecidableEq α] (pill : α)
    (items : List α) (sources : List (List α))
    (hitems : pill ∉ items) (hsources : ∀ s ∈ sources, pill ∉ s) :
    (Producer.runPuts { items := items, index := 0 } pill).1 = items ++ [pill] ∧
    (Producer.runPuts { items := items, index := 0 } pill).1.count pill = 1 ∧
    totalShutdownSignals sources pill = sources.length :=
  ⟨runPuts_spec items pill, count_pill_runPuts items pill hitems,
    totalShutdownSignals_eq sources pill hsources⟩

/-- Witness for C9: an empty source still yields exactly the pill, and
three producers (one with an empty source) inject three pills. -/
theorem producer_pill_per_producer_witness :
    (Producer.runPuts { items := ([] : List ℤ), index := 0 } 0).1 = [] ++ [0] ∧
    (Producer.runPuts { items := ([] : List ℤ), index := 0 } 0).1.count 0 = 1 ∧
    totalShutdownSignals [[1], [2], []] (0 : ℤ) = 3 :=
  producer_pill_per_producer ℤ 0 [] [[1], [2], []] (by decide) (by decide)

/-- C1 counterexample: a run with `producer_count = 2` and
`consumer_count = 1`.  Each `Producer.run` enqueues its own pill at the
end of its own loop — there is no coordinator performing a one-time
injection after the last producer finishes — so 2 shutdown signals are
injected, not `consumer_count = 1`, and the single consumer stops at the
first pill, leaving the second signal unconsumed in the queue. -/
theorem shutdown_count_cex :
    totalShutdownSignals [[1], [2]] (0 : ℤ) = 2 ∧
    (Producer.runPuts ({ items := [1], index := 0 } : SourceContainer ℤ) 0).1 = [1, 0] ∧
    (Producer.runPuts ({ items := [2], index := 0 } : SourceContainer ℤ) 0).1 = [2, 0] ∧
    Consumer.runModel (0 : ℤ) [1, 2, 0, 0] = ([1, 2], 3) ∧
    (2 : ℕ) ≠ 1 := by
  refine ⟨?_, by rw [runPuts_spec]; rfl, by rw [runPuts_spec]; rfl, by decide, by decide⟩
  rw [totalShutdownSignals_eq [[1], [2]] 0 (by decide)]
  rfl

/-- C1 amended: shutdown signals are injected per producer, not by a
coordinator: each producer whose source avoids the pill value enqueues
exactly one pill at the end of its own run, so a run injects exactly
`producer_count` signals — a total that differs from `consumer_count`
whenever the two counts differ. -/
theorem shutdown_total_is_producer_count (α : Type) [DecidableEq α] (pill : α)
    (sources : List (List α)) (consumerCount : Nat)
    (h : ∀ s ∈ sources, pill ∉ s) (hne : sources.length ≠ consumerCount) :
    totalShutdownSignals sources pill = sources.length ∧
    totalShutdownSignals sources pill ≠ consumerCount := by
  have htot := totalShutdownSignals_eq sources pill h
  exact ⟨htot, by rw [htot]; exact hne⟩

/-- Witness for C1 (amended): two producers, one consumer. -/
theorem shutdown_total_is_producer_count_witness :
    ((∀ s ∈ [[1], [2]], (0 : ℤ) ∉ s) ∧ [[1], [2]].length ≠ 1) ∧
    (totalShutdownSignals [[1], [2]] (0 : ℤ) = [[1], [2]].length ∧
      totalShutdownSignals [[1], [2]] (0 : ℤ) ≠ 1) :=
  ⟨⟨by decide, by decide⟩,
    shutdown_total_is_producer_count ℤ 0 [[1], [2]] 1 (by decide) (by decide)⟩

/-- C3 counterexample: a producer that raises during its second iteration,
after putting one item.  `Producer.run` reaches its `except Exception`
branch, which only calls `logger.exception`: the outcome is
`loggedError` — no per-worker error slot is written, nothing is re-raised
to the owner, no completion is reported — and no pill occurs among its
puts, so a consumer waiting for this producer's pill is never released. -/
theorem producer_error_swallowed_cex :
    Producer.runModel ({ items := [1, 2, 3], index := 0 } : SourceContainer ℤ) 0 (some 1) =
      .loggedError [1] ∧
    ([1] : List ℤ).count 0 = 0 := by
  refine ⟨?_, by decide⟩
  simp [Producer.runModel, producerLoop_spec]

/-- C3 amended: an unexpected error in the producer loop is caught by the
`except` handler inside `run`, logged, and swallowed: the outcome is
`loggedError` carrying only the items put before the failure; the error
is not surfaced to the owning process, completion is not reported, and no
shutdown pill is enqueued by the failed producer, so consumer shutdown can
block forever on it. -/
theorem producer_error_logged_only (α : Type) [DecidableEq α] (items : List α)
    (pill : α) (k : Nat) (h : pill ∉ items) :
    Producer.runModel { items := items, index := 0 } pill (some k) =
      .loggedError (items.take k) ∧
    (items.take k).count pill = 0 := by
  constructor
  · simp [Producer.runModel, producerLoop_spec]
  · exact List.count_eq_zero_of_not_mem
      (fun hmem => h (List.take_subset k items hmem))

/-- Witness for C3 (amended): failure during the second iteration over the
source 1, 2, 3 with pill value 0. -/
theorem producer_error_logged_only_witness :
    (0 : ℤ) ∉ [1, 2, 3] ∧
    (Producer.runModel ({ items := [1, 2, 3], index := 0 } : SourceContainer ℤ) 0 (some 2) =
        .loggedError ([1, 2, 3].take 2) ∧
      (([1, 2, 3] : List ℤ).take 2).count 0 = 0) :=
  ⟨by decide, producer_error_logged_only ℤ [1, 2, 3] 0 2 (by decide)⟩

end ProducerConsumer
